import Mathlib

/-!
Shallow embedding of the gossip production algorithm from
`src/neighborhood_lib/src/gossip_producer.rs`.

Public keys are modelled as `Nat` (opaque, comparable identifiers).
A Rust panic is modelled as an `Except.error` value; the three panic sites
in the source are kept distinguishable:
  * `panic!("Target node ... not in NeighborhoodDatabase")` — `targetNotFound`;
  * `.expect("Key magically disappeared")` — `danglingNeighborReference`;
  * the `unimplemented!()` in `choose_introductions` — `unimplementedPanic`.
The `NeighborhoodDatabase` and `GossipBuilder` types live outside the given
source tree; they are modelled from the spec (§3, §4.2): the database is a
root record plus a key-to-record mapping (an association list with unique
keys), and the builder accumulates entries in insertion order and encodes
edges as (from-position, to-position) pairs into the entry list.
-/

/-- A peer record: key, optional network address, relay/bootstrap flag and
the list of known neighbor keys (from the spec's data model, §3). -/
structure NodeRecord where
  public_key : Nat
  node_addr_opt : Option Nat
  is_bootstrap_node : Bool
  neighbors : List Nat
deriving DecidableEq, Inhabited

/-- `NodeRecord::has_neighbor`: membership of a key in the neighbor list. -/
def NodeRecord.has_neighbor (n : NodeRecord) (k : Nat) : Bool :=
  decide (k ∈ n.neighbors)

/-- Modelled from the spec: the `NeighborhoodDatabase` (whose source is not
in the given tree) is the root record plus a mapping key → record,
embedded as an association list. -/
structure NeighborhoodDatabase where
  root : NodeRecord
  nodes : List (Nat × NodeRecord)
deriving DecidableEq

/-- `NeighborhoodDatabase::node_by_key`: lookup in the mapping. -/
def NeighborhoodDatabase.node_by_key (db : NeighborhoodDatabase) (k : Nat) :
    Option NodeRecord :=
  (db.nodes.find? (fun p => p.1 == k)).map (·.2)

/-- `NeighborhoodDatabase::keys`: the key set of the mapping. -/
def NeighborhoodDatabase.keys (db : NeighborhoodDatabase) : List Nat :=
  db.nodes.map (·.1)

/-- Well-formedness of the database, from the spec's data-model invariants
(§3): unique keys, each record stored under its own key, neighbor lists are
sets (no duplicates), and the root is present in the mapping. -/
def NeighborhoodDatabase.wf (db : NeighborhoodDatabase) : Prop :=
  db.keys.Nodup ∧
  (∀ p ∈ db.nodes, p.2.public_key = p.1) ∧
  (∀ p ∈ db.nodes, p.2.neighbors.Nodup) ∧
  (db.root.public_key, db.root) ∈ db.nodes

/-- The outcomes of the panic sites in `produce`/`choose_introductions`,
kept distinguishable (spec §7). -/
inductive ProduceError where
  | targetNotFound
  | danglingNeighborReference
  | unimplementedPanic
deriving DecidableEq

/-- A disclosed entry of the outgoing message. Modelled from the spec
(§3, §4.2): full record content, with the address blanked when masked. -/
structure GossipNodeRecord where
  public_key : Nat
  node_addr_opt : Option Nat
  is_bootstrap_node : Bool
  neighbors : List Nat
deriving DecidableEq, Inhabited

/-- `GossipNodeRecord::from(record, reveal)`: the wire entry, masking the
address when `reveal` is false. -/
def GossipNodeRecord.fromRecord (n : NodeRecord) (reveal : Bool) :
    GossipNodeRecord :=
  { public_key := n.public_key
    node_addr_opt := if reveal then n.node_addr_opt else none
    is_bootstrap_node := n.is_bootstrap_node
    neighbors := n.neighbors }

/-- Modelled from the spec (§3, §4.2): the built gossip message — entries in
insertion order, edges as (from-position, to-position) pairs into them. -/
structure Gossip where
  node_records : List GossipNodeRecord
  neighbor_pairs : List (Nat × Nat)
deriving DecidableEq

/-- The edges of a message read back as (from-key, to-key) pairs, by
resolving each position to the entry it references (as the repository's
tests do). -/
def Gossip.edgeKeyList (g : Gossip) : List (Nat × Nat) :=
  g.neighbor_pairs.map (fun p =>
    (((g.node_records.get? p.1).getD default).public_key,
     ((g.node_records.get? p.2).getD default).public_key))

/-- `static MINIMUM_NEIGHBORS: usize = 3`. -/
def MINIMUM_NEIGHBORS : Nat := 3

/-- The target's standard-neighbor count from `choose_introductions`
(gossip_producer.rs lines 66–71): neighbors whose record is not a bootstrap
node are counted; a neighbor key missing from the mapping hits the
`unimplemented!()` panic. -/
def targetStandardNeighbors (db : NeighborhoodDatabase) :
    List Nat → Except ProduceError Nat
  | [] => .ok 0
  | y :: ys =>
    match db.node_by_key y with
    | some n =>
      match targetStandardNeighbors db ys with
      | .error e => .error e
      | .ok c => .ok (if n.is_bootstrap_node then c else c + 1)
    | none => .error .unimplementedPanic

/-- The candidate list of `choose_introductions` (lines 74–79): keys of the
root's neighbor list that are not already neighbors of the target, are not
the target itself, and resolve to a non-bootstrap record; a failing lookup
is the `expect("Key magically disappeared")` panic. Each surviving key is
kept with its record (the record is used for ranking). -/
def possibleIntroducees (db : NeighborhoodDatabase) (target : NodeRecord) :
    List Nat → Except ProduceError (List (Nat × NodeRecord))
  | [] => .ok []
  | k :: ks =>
    if k ∈ target.neighbors then possibleIntroducees db target ks
    else if target.public_key = k then possibleIntroducees db target ks
    else
      match db.node_by_key k with
      | none => .error .danglingNeighborReference
      | some n =>
        match possibleIntroducees db target ks with
        | .error e => .error e
        | .ok rest => .ok (if n.is_bootstrap_node then rest else (k, n) :: rest)

/-- The comparison used by the `sort_by` on candidates (lines 81–84):
ascending by known-neighbor count. -/
def introduceeLE (l r : Nat × NodeRecord) : Prop :=
  l.2.neighbors.length ≤ r.2.neighbors.length

instance : DecidableRel introduceeLE :=
  fun l r => Nat.decLe l.2.neighbors.length r.2.neighbors.length

instance : IsTotal (Nat × NodeRecord) introduceeLE :=
  ⟨fun a b => Nat.le_total a.2.neighbors.length b.2.neighbors.length⟩

instance : IsTrans (Nat × NodeRecord) introduceeLE :=
  ⟨fun _ _ _ => Nat.le_trans⟩

/-- `GossipProducerReal::choose_introductions` (lines 65–90): count the
target's standard neighbors, and when the target is not a bootstrap node,
is a direct neighbor of the root, and the count is below
`MINIMUM_NEIGHBORS`, rank the candidates by ascending neighbor count
and take the first `MINIMUM_NEIGHBORS - count` of them; otherwise return
the empty list. Rust's `sort_by` is a stable sort, and the output of a
stable sort under a total preorder is unique, so the stable
`List.insertionSort` embeds it faithfully. -/
def choose_introductions (db : NeighborhoodDatabase) (target : NodeRecord) :
    Except ProduceError (List Nat) :=
  match targetStandardNeighbors db target.neighbors with
  | .error e => .error e
  | .ok c =>
    if target.is_bootstrap_node = false ∧
        target.public_key ∈ db.root.neighbors ∧ c < MINIMUM_NEIGHBORS then
      match possibleIntroducees db target db.root.neighbors with
      | .error e => .error e
      | .ok cands =>
        .ok (((cands.insertionSort introduceeLE).take (MINIMUM_NEIGHBORS - c)).map (·.1))
    else
      .ok []

/-- The address-reveal test of `produce` (lines 42–45): the node lists the
target as a neighbor, or the target lists the node, or the node's key was
chosen as an introducee. -/
def revealNodeAddr (target : NodeRecord) (introducees : List Nat)
    (key : Nat) (n : NodeRecord) : Bool :=
  n.has_neighbor target.public_key || target.has_neighbor n.public_key ||
    decide (key ∈ introducees)

/-- The edges contributed by one node `k` in the second fold of `produce`
(lines 48–54): one edge per neighbor `y` whose record is not a bootstrap
node; a neighbor that does not resolve is the
`expect("Key magically disappeared")` panic. -/
def nodeEdges (db : NeighborhoodDatabase) (k : Nat) :
    List Nat → Except ProduceError (List (Nat × Nat))
  | [] => .ok []
  | y :: ys =>
    match db.node_by_key y with
    | none => .error .danglingNeighborReference
    | some m =>
      match nodeEdges db k ys with
      | .error e => .error e
      | .ok rest => .ok (if m.is_bootstrap_node then rest else (k, y) :: rest)

/-- The second fold of `produce` over the key set: edges of all nodes, in
key order. -/
def allEdges (db : NeighborhoodDatabase) :
    List (Nat × NodeRecord) → Except ProduceError (List (Nat × Nat))
  | [] => .ok []
  | p :: ps =>
    match nodeEdges db p.1 p.2.neighbors with
    | .error e => .error e
    | .ok es =>
      match allEdges db ps with
      | .error e => .error e
      | .ok rest => .ok (es ++ rest)

/-- `GossipProducerReal::produce` (lines 32–57): fail with `targetNotFound`
when the target key is absent; otherwise choose introducees, emit one entry
per key of the mapping (masking addresses per `revealNodeAddr`), and emit
the relay-filtered edges, encoded by entry position. The source folds over
`database.keys()` and re-looks each key up (the `expect` on those lookups
cannot fire, since the keys come from the mapping itself); this is embedded
as the direct traversal of the association list, which coincides with the
source for a genuine mapping. -/
def produce (db : NeighborhoodDatabase) (target_key : Nat) :
    Except ProduceError Gossip :=
  match db.node_by_key target_key with
  | none => .error .targetNotFound
  | some target =>
    match choose_introductions db target with
    | .error e => .error e
    | .ok introducees =>
      match allEdges db db.nodes with
      | .error e => .error e
      | .ok edges =>
        .ok
          { node_records := db.nodes.map (fun p =>
              GossipNodeRecord.fromRecord p.2
                (revealNodeAddr target introducees p.1 p.2))
            neighbor_pairs := edges.map (fun e =>
              (db.keys.indexOf e.1, db.keys.indexOf e.2)) }

/-- Neighbor count of the record a key resolves to (used to phrase the
ranking facts about `choose_introductions`). -/
def neighborCountOf (db : NeighborhoodDatabase) (k : Nat) : Nat :=
  ((db.node_by_key k).getD default).neighbors.length

/-- Fixture mirroring the repository test
`gossip_producer_introduces_target_to_less_connected_neighbors`:
the root (key 1) knows 2, 5, 3 and the target 4; the target knows 1 and 5. -/
def m1 : NodeRecord := ⟨1, some 11, false, [2, 5, 3, 4]⟩

def m2 : NodeRecord := ⟨2, some 22, false, [1, 5, 3]⟩

def m3 : NodeRecord := ⟨3, some 33, false, [1, 2]⟩

def m4 : NodeRecord := ⟨4, none, false, [1, 5]⟩

def m5 : NodeRecord := ⟨5, some 55, false, []⟩

def dbm : NeighborhoodDatabase := ⟨m1, [(1, m1), (2, m2), (3, m3), (4, m4), (5, m5)]⟩

/-- The message `produce dbm 4` evaluates to (node 3 is introduced, nodes 1
and 5 are direct target neighbors, nodes 2 and 4 are masked). -/
def wMsg : Gossip :=
  ⟨[⟨1, some 11, false, [2, 5, 3, 4]⟩, ⟨2, none, false, [1, 5, 3]⟩,
    ⟨3, some 33, false, [1, 2]⟩, ⟨4, none, false, [1, 5]⟩,
    ⟨5, some 55, false, []⟩],
   [(0, 1), (0, 4), (0, 2), (0, 3), (1, 0), (1, 4), (1, 2), (2, 0), (2, 1),
    (3, 0), (3, 4)]⟩

/-- Fixture mirroring the repository test
`database_produces_gossip_with_standard_gossip_handler_and_well_connected_target`:
node 3 is a bootstrap node, the target is 4. -/
def n1 : NodeRecord := ⟨1, some 11, false, [2, 3]⟩

def n2 : NodeRecord := ⟨2, some 22, false, [3, 4]⟩

def n3 : NodeRecord := ⟨3, some 33, true, []⟩

def n4 : NodeRecord := ⟨4, none, false, [3]⟩

def db1 : NeighborhoodDatabase := ⟨n1, [(1, n1), (2, n2), (3, n3), (4, n4)]⟩

/-- Fixture for the unknown-neighbor case (gossip_producer.rs line 69): the
target (key 1) lists a neighbor key 2 that has no record in the mapping. -/
def bugRoot : NodeRecord := ⟨0, some 10, false, [1]⟩

def bugTarget : NodeRecord := ⟨1, none, false, [2]⟩

def bugDb : NeighborhoodDatabase := ⟨bugRoot, [(0, bugRoot), (1, bugTarget)]⟩

/-- Fixture with a dangling neighbor reference: the root (key 0) lists a
neighbor key 5 that has no record in the mapping. -/
def dangRoot : NodeRecord := ⟨0, some 10, false, [5]⟩

def dangTarget : NodeRecord := ⟨1, none, false, []⟩

def dangDb : NeighborhoodDatabase := ⟨dangRoot, [(0, dangRoot), (1, dangTarget)]⟩

theorem targetStandardNeighbors_error {db : NeighborhoodDatabase}
    {ys : List Nat} {e : ProduceError}
    (h : targetStandardNeighbors db ys = .error e) :
    e = .unimplementedPanic := by
  induction ys generalizing e with
  | nil => simp [targetStandardNeighbors] at h
  | cons y ys ih =>
    rw [targetStandardNeighbors] at h
    cases hy : db.node_by_key y with
    | none => rw [hy] at h; injection h with h2; exact h2.symm
    | some n =>
      rw [hy] at h
      cases hr : targetStandardNeighbors db ys with
      | ok c => rw [hr] at h; simp at h
      | error e2 =>
        rw [hr] at h
        injection h with h2
        exact h2 ▸ ih hr

theorem possibleIntroducees_error {db : NeighborhoodDatabase}
    {target : NodeRecord} {ks : List Nat} {e : ProduceError}
    (h : possibleIntroducees db target ks = .error e) :
    e = .danglingNeighborReference := by
  induction ks generalizing e with
  | nil => simp [possibleIntroducees] at h
  | cons k ks ih =>
    rw [possibleIntroducees] at h
    by_cases h1 : k ∈ target.neighbors
    · rw [if_pos h1] at h; exact ih h
    · rw [if_neg h1] at h
      by_cases h2 : target.public_key = k
      · rw [if_pos h2] at h; exact ih h
      · rw [if_neg h2] at h
        cases hy : db.node_by_key k with
        | none => rw [hy] at h; injection h with h3; exact h3.symm
        | some n =>
          rw [hy] at h
          cases hr : possibleIntroducees db target ks with
          | ok c => rw [hr] at h; simp at h
          | error e2 =>
            rw [hr] at h
            injection h with h3
            exact h3 ▸ ih hr

theorem nodeEdges_error {db : NeighborhoodDatabase} {k : Nat}
    {ys : List Nat} {e : ProduceError}
    (h : nodeEdges db k ys = .error e) :
    e = .danglingNeighborReference := by
  induction ys generalizing e with
  | nil => simp [nodeEdges] at h
  | cons y ys ih =>
    rw [nodeEdges] at h
    cases hy : db.node_by_key y with
    | none => rw [hy] at h; injection h with h2; exact h2.symm
    | some m =>
      rw [hy] at h
      cases hr : nodeEdges db k ys with
      | ok es => rw [hr] at h; simp at h
      | error e2 =>
        rw [hr] at h
        injection h with h2
        exact h2 ▸ ih hr

theorem allEdges_error {db : NeighborhoodDatabase}
    {ps : List (Nat × NodeRecord)} {e : ProduceError}
    (h : allEdges db ps = .error e) :
    e = .danglingNeighborReference := by
  induction ps generalizing e with
  | nil => simp [allEdges] at h
  | cons p ps ih =>
    rw [allEdges] at h
    cases he : nodeEdges db p.1 p.2.neighbors with
    | error e2 =>
      rw [he] at h
      injection h with h2
      exact h2 ▸ nodeEdges_error he
    | ok es =>
      rw [he] at h
      cases hr : allEdges db ps with
      | ok rest => rw [hr] at h; simp at h
      | error e2 =>
        rw [hr] at h
        injection h with h2
        exact h2 ▸ ih hr

theorem node_by_key_some {db : NeighborhoodDatabase} {k : Nat} {n : NodeRecord}
    (h : db.node_by_key k = some n) : (k, n) ∈ db.nodes ∧ k ∈ db.keys := by
  unfold NeighborhoodDatabase.node_by_key at h
  cases hf : db.nodes.find? (fun p => p.1 == k) with
  | none => rw [hf] at h; simp at h
  | some p =>
    rw [hf] at h
    simp only [Option.map_some'] at h
    have hp := List.find?_some hf
    have hmem := List.mem_of_find?_eq_some hf
    have hk : p.1 = k := by simpa using hp
    have hn : p.2 = n := by injection h
    constructor
    · have : p = (k, n) := by
        cases p
        simp only at hk hn
        rw [hk, hn]
      exact this ▸ hmem
    · exact hk ▸ List.mem_map_of_mem (·.1) hmem

theorem node_by_key_of_mem_aux {k : Nat} {n : NodeRecord} :
    ∀ {l : List (Nat × NodeRecord)}, (l.map (·.1)).Nodup → (k, n) ∈ l →
      (l.find? (fun p => p.1 == k)).map (·.2) = some n
  | [], _, hm => by simp at hm
  | p :: l, hnd, hm => by
    rw [List.map_cons, List.nodup_cons] at hnd
    by_cases hk : p.1 = k
    · have hp : p = (k, n) := by
        rcases List.mem_cons.mp hm with h | h
        · exact h.symm
        · exact absurd (hk ▸ List.mem_map_of_mem (·.1) h) hnd.1
      rw [List.find?_cons_of_pos _ (by simp [hk]), hp]
      simp
    · have hm' : (k, n) ∈ l := by
        rcases List.mem_cons.mp hm with h | h
        · exact absurd (congrArg (·.1) h.symm) hk
        · exact h
      rw [List.find?_cons_of_neg _ (by simp [hk])]
      exact node_by_key_of_mem_aux hnd.2 hm'

theorem node_by_key_of_mem {db : NeighborhoodDatabase} {k : Nat}
    {n : NodeRecord} (hnd : db.keys.Nodup) (hm : (k, n) ∈ db.nodes) :
    db.node_by_key k = some n :=
  node_by_key_of_mem_aux hnd hm

theorem nodeEdges_ok_mem {db : NeighborhoodDatabase} {k : Nat} :
    ∀ {ys : List Nat} {es : List (Nat × Nat)}, nodeEdges db k ys = .ok es →
      ∀ {x y : Nat}, ((x, y) ∈ es ↔ x = k ∧ y ∈ ys ∧
        ∃ m, db.node_by_key y = some m ∧ m.is_bootstrap_node = false)
  | [], es, h, x, y => by
    rw [nodeEdges] at h
    injection h with h2
    simp [← h2]
  | y' :: ys, es, h, x, y => by
    rw [nodeEdges] at h
    cases hy : db.node_by_key y' with
    | none => rw [hy] at h; simp at h
    | some m =>
      rw [hy] at h
      cases hr : nodeEdges db k ys with
      | error e => rw [hr] at h; simp at h
      | ok rest =>
        rw [hr] at h
        injection h with h2
        have ih := fun {x y : Nat} => nodeEdges_ok_mem hr (x := x) (y := y)
        cases hb : m.is_bootstrap_node with
        | true =>
          rw [hb] at h2; simp only [if_true] at h2
          rw [← h2]
          rw [ih]
          constructor
          · rintro ⟨hx, hmem, m2, hm2, hb2⟩
            exact ⟨hx, List.mem_cons_of_mem _ hmem, m2, hm2, hb2⟩
          · rintro ⟨hx, hmem, m2, hm2, hb2⟩
            refine ⟨hx, ?_, m2, hm2, hb2⟩
            rcases List.mem_cons.mp hmem with he | hmem'
            · exfalso
              rw [he, hy] at hm2
              injection hm2 with hm3
              rw [← hm3] at hb2
              rw [hb2] at hb
              exact Bool.false_ne_true hb
            · exact hmem'
        | false =>
          rw [hb] at h2; simp only [Bool.false_eq_true, if_false] at h2
          rw [← h2]
          simp only [List.mem_cons, Prod.mk.injEq]
          rw [ih]
          constructor
          · rintro (⟨hx, hyy⟩ | ⟨hx, hmem, m2, hm2, hb2⟩)
            · exact ⟨hx, Or.inl hyy,
                ⟨m, by rw [hyy]; exact hy, hb⟩⟩
            · exact ⟨hx, Or.inr hmem, m2, hm2, hb2⟩
          · rintro ⟨hx, hmem, m2, hm2, hb2⟩
            rcases hmem with he | hmem'
            · exact Or.inl ⟨hx, he⟩
            · exact Or.inr ⟨hx, hmem', m2, hm2, hb2⟩

theorem allEdges_ok_mem {db : NeighborhoodDatabase} :
    ∀ {ps : List (Nat × NodeRecord)} {es : List (Nat × Nat)},
      allEdges db ps = .ok es →
      ∀ {x y : Nat}, ((x, y) ∈ es ↔ ∃ n, (x, n) ∈ ps ∧ y ∈ n.neighbors ∧
        ∃ m, db.node_by_key y = some m ∧ m.is_bootstrap_node = false)
  | [], es, h, x, y => by
    rw [allEdges] at h
    injection h with h2
    simp [← h2]
  | p :: ps, es, h, x, y => by
    rw [allEdges] at h
    cases he : nodeEdges db p.1 p.2.neighbors with
    | error e => rw [he] at h; simp at h
    | ok es1 =>
      rw [he] at h
      cases hr : allEdges db ps with
      | error e => rw [hr] at h; simp at h
      | ok rest =>
        rw [hr] at h
        injection h with h2
        rw [← h2, List.mem_append]
        rw [nodeEdges_ok_mem he, allEdges_ok_mem hr]
        constructor
        · rintro (⟨hx, hmem, m2, hm2, hb2⟩ | ⟨n, hn, hmem, m2, hm2, hb2⟩)
          · exact ⟨p.2, by rw [hx]; exact List.mem_cons_self _ _, hmem, m2, hm2, hb2⟩
          · exact ⟨n, List.mem_cons_of_mem _ hn, hmem, m2, hm2, hb2⟩
        · rintro ⟨n, hn, hmem, m2, hm2, hb2⟩
          rcases List.mem_cons.mp hn with hep | hn'
          · refine Or.inl ⟨?_, ?_, m2, hm2, hb2⟩
            · exact congrArg Prod.fst hep
            · have : n = p.2 := congrArg Prod.snd hep
              exact this ▸ hmem
          · exact Or.inr ⟨n, hn', hmem, m2, hm2, hb2⟩

theorem possibleIntroducees_ok_mem {db : NeighborhoodDatabase}
    {target : NodeRecord} :
    ∀ {ks : List Nat} {cands : List (Nat × NodeRecord)},
      possibleIntroducees db target ks = .ok cands →
      ∀ {k : Nat} {n : NodeRecord}, ((k, n) ∈ cands ↔ k ∈ ks ∧
        k ∉ target.neighbors ∧ target.public_key ≠ k ∧
        db.node_by_key k = some n ∧ n.is_bootstrap_node = false)
  | [], cands, h, k, n => by
    rw [possibleIntroducees] at h
    injection h with h2
    simp [← h2]
  | k' :: ks, cands, h, k, n => by
    rw [possibleIntroducees] at h
    by_cases h1 : k' ∈ target.neighbors
    · rw [if_pos h1] at h
      rw [possibleIntroducees_ok_mem h]
      constructor
      · rintro ⟨hk, hnb, hne, hl, hb⟩
        exact ⟨List.mem_cons_of_mem _ hk, hnb, hne, hl, hb⟩
      · rintro ⟨hk, hnb, hne, hl, hb⟩
        refine ⟨?_, hnb, hne, hl, hb⟩
        rcases List.mem_cons.mp hk with he | hk'
        · exact absurd (he ▸ h1) hnb
        · exact hk'
    · rw [if_neg h1] at h
      by_cases h2 : target.public_key = k'
      · rw [if_pos h2] at h
        rw [possibleIntroducees_ok_mem h]
        constructor
        · rintro ⟨hk, hnb, hne, hl, hb⟩
          exact ⟨List.mem_cons_of_mem _ hk, hnb, hne, hl, hb⟩
        · rintro ⟨hk, hnb, hne, hl, hb⟩
          refine ⟨?_, hnb, hne, hl, hb⟩
          rcases List.mem_cons.mp hk with he | hk'
          · exact absurd (he ▸ h2) hne
          · exact hk'
      · rw [if_neg h2] at h
        cases hy : db.node_by_key k' with
        | none => rw [hy] at h; simp at h
        | some n' =>
          rw [hy] at h
          cases hr : possibleIntroducees db target ks with
          | error e => rw [hr] at h; simp at h
          | ok rest =>
            rw [hr] at h
            injection h with h3
            have ih := fun {k : Nat} {n : NodeRecord} =>
              possibleIntroducees_ok_mem hr (k := k) (n := n)
            cases hb : n'.is_bootstrap_node with
            | true =>
              rw [hb] at h3; simp only [if_true] at h3
              rw [← h3, ih]
              constructor
              · rintro ⟨hk, hnb, hne, hl, hb2⟩
                exact ⟨List.mem_cons_of_mem _ hk, hnb, hne, hl, hb2⟩
              · rintro ⟨hk, hnb, hne, hl, hb2⟩
                refine ⟨?_, hnb, hne, hl, hb2⟩
                rcases List.mem_cons.mp hk with he | hk'
                · exfalso
                  rw [he, hy] at hl
                  injection hl with hl2
                  rw [← hl2] at hb2
                  rw [hb2] at hb
                  exact Bool.false_ne_true hb
                · exact hk'
            | false =>
              rw [hb] at h3; simp only [Bool.false_eq_true, if_false] at h3
              rw [← h3]
              simp only [List.mem_cons, Prod.mk.injEq]
              rw [ih]
              constructor
              · rintro (⟨hk, hn⟩ | ⟨hk, hnb, hne, hl, hb2⟩)
                · subst hk; subst hn
                  exact ⟨Or.inl rfl, h1, h2, hy, hb⟩
                · exact ⟨Or.inr hk, hnb, hne, hl, hb2⟩
              · rintro ⟨hk, hnb, hne, hl, hb2⟩
                rcases hk with he | hk'
                · subst he
                  rw [hy] at hl
                  injection hl with hl2
                  exact Or.inl ⟨rfl, hl2.symm⟩
                · exact Or.inr ⟨hk', hnb, hne, hl, hb2⟩

theorem possibleIntroducees_keys_sublist {db : NeighborhoodDatabase}
    {target : NodeRecord} :
    ∀ {ks : List Nat} {cands : List (Nat × NodeRecord)},
      possibleIntroducees db target ks = .ok cands →
      List.Sublist (cands.map (·.1)) ks
  | [], cands, h => by
    rw [possibleIntroducees] at h; injection h with h2; rw [← h2]; simp
  | k :: ks, cands, h => by
    rw [possibleIntroducees] at h
    by_cases h1 : k ∈ target.neighbors
    · rw [if_pos h1] at h
      exact (possibleIntroducees_keys_sublist h).cons k
    · rw [if_neg h1] at h
      by_cases h2 : target.public_key = k
      · rw [if_pos h2] at h
        exact (possibleIntroducees_keys_sublist h).cons k
      · rw [if_neg h2] at h
        cases hy : db.node_by_key k with
        | none => rw [hy] at h; simp at h
        | some n =>
          rw [hy] at h
          cases hr : possibleIntroducees db target ks with
          | error e => rw [hr] at h; simp at h
          | ok rest =>
            rw [hr] at h
            injection h with h3
            rw [← h3]
            cases hb : n.is_bootstrap_node with
            | true =>
              rw [if_pos rfl]
              exact (possibleIntroducees_keys_sublist hr).cons k
            | false =>
              rw [if_neg Bool.false_ne_true, List.map_cons]
              exact (possibleIntroducees_keys_sublist hr).cons₂ k

theorem choose_introductions_ok_inv {db : NeighborhoodDatabase}
    {target : NodeRecord} {l : List Nat}
    (h : choose_introductions db target = .ok l) :
    ∃ c, targetStandardNeighbors db target.neighbors = .ok c ∧
      (((target.is_bootstrap_node = false ∧
          target.public_key ∈ db.root.neighbors ∧ c < MINIMUM_NEIGHBORS) ∧
        ∃ cands, possibleIntroducees db target db.root.neighbors = .ok cands ∧
          l = ((cands.insertionSort introduceeLE).take
                (MINIMUM_NEIGHBORS - c)).map (·.1)) ∨
       (¬(target.is_bootstrap_node = false ∧
          target.public_key ∈ db.root.neighbors ∧ c < MINIMUM_NEIGHBORS) ∧
        l = [])) := by
  unfold choose_introductions at h
  split at h
  · simp at h
  · rename_i c heq
    refine ⟨c, heq, ?_⟩
    split at h
    · rename_i hcond
      split at h
      · simp at h
      · rename_i cands heq2
        injection h with h2
        exact Or.inl ⟨hcond, cands, heq2, h2.symm⟩
    · rename_i hcond
      injection h with h2
      exact Or.inr ⟨hcond, h2.symm⟩

theorem choose_introductions_error_ne_tnf {db : NeighborhoodDatabase}
    {target : NodeRecord} {e : ProduceError}
    (h : choose_introductions db target = .error e) :
    e ≠ .targetNotFound := by
  unfold choose_introductions at h
  split at h
  · rename_i e2 heq
    injection h with h2
    rw [← h2, targetStandardNeighbors_error heq]
    simp
  · rename_i c heq
    split at h
    · split at h
      · rename_i e2 heq2
        injection h with h2
        rw [← h2, possibleIntroducees_error heq2]
        simp
      · simp at h
    · simp at h

theorem produce_ok_inv {db : NeighborhoodDatabase} {tk : Nat} {msg : Gossip}
    (h : produce db tk = .ok msg) :
    ∃ target intros edges, db.node_by_key tk = some target ∧
      choose_introductions db target = .ok intros ∧
      allEdges db db.nodes = .ok edges ∧
      msg = { node_records := db.nodes.map (fun p =>
                GossipNodeRecord.fromRecord p.2
                  (revealNodeAddr target intros p.1 p.2))
              neighbor_pairs := edges.map (fun e =>
                (db.keys.indexOf e.1, db.keys.indexOf e.2)) } := by
  unfold produce at h
  split at h
  · simp at h
  · rename_i target ht
    split at h
    · simp at h
    · rename_i intros hi
      split at h
      · simp at h
      · rename_i edges he
        injection h with h2
        exact ⟨target, intros, edges, ht, hi, he, h2.symm⟩

/-- Claim C1: for every graph and target key present in the graph, the entry
`produce` emits for the node stored at any position `i` of the mapping —
the root included, with no special case — carries the node's address exactly
when the node lists the target as a neighbor, or the target lists the node,
or the node's key is in the introducee set chosen by `choose_introductions`;
otherwise the address is masked to `none`. -/
theorem C1_address_reveal_policy {db : NeighborhoodDatabase} {tk : Nat}
    {msg : Gossip} {target : NodeRecord} {intros : List Nat} {i k : Nat}
    {n : NodeRecord}
    (hp : produce db tk = .ok msg)
    (ht : db.node_by_key tk = some target)
    (hi : choose_introductions db target = .ok intros)
    (hn : db.nodes.get? i = some (k, n)) :
    msg.node_records.get? i = some
      { public_key := n.public_key
        node_addr_opt :=
          if target.public_key ∈ n.neighbors ∨ n.public_key ∈ target.neighbors
              ∨ k ∈ intros then n.node_addr_opt else none
        is_bootstrap_node := n.is_bootstrap_node
        neighbors := n.neighbors } := by
  obtain ⟨target2, intros2, edges, ht2, hi2, he2, hmsg⟩ := produce_ok_inv hp
  rw [ht] at ht2
  injection ht2 with ht3
  subst ht3
  rw [hi] at hi2
  injection hi2 with hi3
  subst hi3
  subst hmsg
  simp only [List.get?_map, hn, Option.map_some']
  congr 1
  simp only [GossipNodeRecord.fromRecord, revealNodeAddr,
    NodeRecord.has_neighbor, Bool.or_eq_true, decide_eq_true_eq, or_assoc]

/-- Witness for C1 at the fixture `dbm` with target 4: the entry at
position 1 (key 2, not connected to the target, not introduced) is masked. -/
theorem C1_address_reveal_policy_witness :
    produce dbm 4 = .ok wMsg ∧
    NeighborhoodDatabase.node_by_key dbm 4 = some m4 ∧
    choose_introductions dbm m4 = .ok [3] ∧
    dbm.nodes.get? 1 = some (2, m2) ∧
    wMsg.node_records.get? 1 = some
      { public_key := m2.public_key
        node_addr_opt :=
          if m4.public_key ∈ m2.neighbors ∨ m2.public_key ∈ m4.neighbors
              ∨ 2 ∈ [3] then m2.node_addr_opt else none
        is_bootstrap_node := m2.is_bootstrap_node
        neighbors := m2.neighbors } :=
  ⟨rfl, rfl, rfl, rfl,
   @C1_address_reveal_policy dbm 4 wMsg m4 [3] 1 2 m2 rfl rfl rfl rfl⟩

theorem produce_entry_key {db : NeighborhoodDatabase}
    (hkeyed : ∀ p ∈ db.nodes, p.2.public_key = p.1)
    (f : Nat × NodeRecord → Bool) {x : Nat} (hx : x ∈ db.keys) :
    (((db.nodes.map (fun p =>
        GossipNodeRecord.fromRecord p.2 (f p))).get? (db.keys.indexOf x)).getD
      default).public_key = x := by
  have hi : db.keys.indexOf x < db.keys.length := List.indexOf_lt_length.mpr hx
  have hlen : db.keys.length = db.nodes.length := by
    simp [NeighborhoodDatabase.keys]
  have hi2 : db.keys.indexOf x < db.nodes.length := hlen ▸ hi
  rw [List.get?_map, List.get?_eq_get hi2]
  simp only [Option.map_some', Option.getD_some]
  have hmem : db.nodes.get ⟨db.keys.indexOf x, hi2⟩ ∈ db.nodes :=
    List.get_mem db.nodes _ _
  have hk := hkeyed _ hmem
  show (db.nodes.get ⟨db.keys.indexOf x, hi2⟩).2.public_key = x
  rw [hk]
  have hfst := List.get_map_rev (fun p : Nat × NodeRecord => p.1)
    (l := db.nodes) (n := ⟨db.keys.indexOf x, hi2⟩)
  rw [hfst]
  exact List.indexOf_get hi

theorem produce_msg_edgeKeyList {db : NeighborhoodDatabase}
    {target : NodeRecord} {intros : List Nat} {edges : List (Nat × Nat)}
    (hkeyed : ∀ p ∈ db.nodes, p.2.public_key = p.1)
    (he : allEdges db db.nodes = .ok edges) :
    Gossip.edgeKeyList
      { node_records := db.nodes.map (fun p =>
          GossipNodeRecord.fromRecord p.2 (revealNodeAddr target intros p.1 p.2))
        neighbor_pairs := edges.map (fun e =>
          (db.keys.indexOf e.1, db.keys.indexOf e.2)) } = edges := by
  unfold Gossip.edgeKeyList
  simp only [List.map_map]
  rw [List.map_congr_left, List.map_id]
  intro e hmem
  have hchar := (allEdges_ok_mem he (x := e.1) (y := e.2)).mp (by simpa using hmem)
  obtain ⟨n, hn, hy, m, hm, hb⟩ := hchar
  have hx1 : e.1 ∈ db.keys := List.mem_map_of_mem (·.1) hn
  have hx2 : e.2 ∈ db.keys := (node_by_key_some hm).2
  have k1 := produce_entry_key hkeyed
    (fun p => revealNodeAddr target intros p.1 p.2) hx1
  have k2 := produce_entry_key hkeyed
    (fun p => revealNodeAddr target intros p.1 p.2) hx2
  simp only [Function.comp]
  exact Prod.ext (by simpa using k1) (by simpa using k2)

/-- Claim C2: for every graph and target present in the graph, the edges of
the message returned by `produce`, read back as key pairs, contain X→Y
exactly when X is a node of the mapping, Y is in X's neighbor list, and Y's
record is not a bootstrap node; consequently no disclosed edge has a relay
destination, edges originating at a relay node are disclosed normally, and
both endpoints of every disclosed edge have entries in the entry list. -/
theorem C2_edge_disclosure {db : NeighborhoodDatabase} {tk : Nat}
    {msg : Gossip}
    (hkeyed : ∀ p ∈ db.nodes, p.2.public_key = p.1)
    (hp : produce db tk = .ok msg) :
    (∀ x y : Nat, ((x, y) ∈ msg.edgeKeyList ↔ ∃ n, (x, n) ∈ db.nodes ∧
      y ∈ n.neighbors ∧
      ∃ m, db.node_by_key y = some m ∧ m.is_bootstrap_node = false)) ∧
    (∀ e ∈ msg.edgeKeyList, (∃ a ∈ msg.node_records, a.public_key = e.1) ∧
      (∃ b ∈ msg.node_records, b.public_key = e.2)) := by
  obtain ⟨target, intros, edges, ht, hi, he, hmsg⟩ := produce_ok_inv hp
  subst hmsg
  rw [produce_msg_edgeKeyList hkeyed he]
  constructor
  · intro x y
    exact allEdges_ok_mem he
  · intro e hmem
    have hchar := (allEdges_ok_mem he (x := e.1) (y := e.2)).mp (by simpa using hmem)
    obtain ⟨n, hn, hy, m, hm, hb⟩ := hchar
    have hx2mem := (node_by_key_some hm).1
    constructor
    · refine ⟨GossipNodeRecord.fromRecord n
        (revealNodeAddr target intros e.1 n), List.mem_map_of_mem _ hn, ?_⟩
      exact hkeyed _ hn
    · refine ⟨GossipNodeRecord.fromRecord m
        (revealNodeAddr target intros e.2 m), List.mem_map_of_mem _ hx2mem, ?_⟩
      exact hkeyed _ hx2mem

/-- The message `produce db1 4` evaluates to (target 4 reached through the
non-bootstrap node 2; edges into the bootstrap node 3 are suppressed). -/
def w1Msg : Gossip :=
  ⟨[⟨1, none, false, [2, 3]⟩, ⟨2, some 22, false, [3, 4]⟩,
    ⟨3, some 33, true, []⟩, ⟨4, none, false, [3]⟩],
   [(0, 1), (1, 3)]⟩

/-- Witness for C2 at the fixture `db1` with target 4. -/
theorem C2_edge_disclosure_witness :
    (∀ p ∈ db1.nodes, p.2.public_key = p.1) ∧
    produce db1 4 = .ok w1Msg ∧
    ((∀ x y : Nat, ((x, y) ∈ w1Msg.edgeKeyList ↔ ∃ n, (x, n) ∈ db1.nodes ∧
        y ∈ n.neighbors ∧
        ∃ m, db1.node_by_key y = some m ∧ m.is_bootstrap_node = false)) ∧
      (∀ e ∈ w1Msg.edgeKeyList,
        (∃ a ∈ w1Msg.node_records, a.public_key = e.1) ∧
        (∃ b ∈ w1Msg.node_records, b.public_key = e.2))) :=
  ⟨by decide, rfl, @C2_edge_disclosure db1 4 w1Msg (by decide) rfl⟩

/-- Claim C6: for every graph and target key present in the graph, the keys
of the entries of the message returned by `produce` are exactly the keys of
the mapping, in order and therefore as a set, and each key appears exactly
once (given the mapping's unique-keys invariant). -/
theorem C6_completeness {db : NeighborhoodDatabase} {tk : Nat} {msg : Gossip}
    (hkeyed : ∀ p ∈ db.nodes, p.2.public_key = p.1)
    (hnodup : db.keys.Nodup)
    (hp : produce db tk = .ok msg) :
    msg.node_records.map (·.public_key) = db.keys ∧
    (msg.node_records.map (·.public_key)).Nodup := by
  obtain ⟨target, intros, edges, ht, hi, he, hmsg⟩ := produce_ok_inv hp
  subst hmsg
  have hmap : (db.nodes.map (fun p => GossipNodeRecord.fromRecord p.2
      (revealNodeAddr target intros p.1 p.2))).map (·.public_key) = db.keys := by
    rw [List.map_map]
    exact List.map_congr_left (fun p hp2 => hkeyed p hp2)
  exact ⟨hmap, hmap ▸ hnodup⟩

/-- Witness for C6 at the fixture `db1` with target 4. -/
theorem C6_completeness_witness :
    (∀ p ∈ db1.nodes, p.2.public_key = p.1) ∧
    db1.keys.Nodup ∧
    produce db1 4 = .ok w1Msg ∧
    (w1Msg.node_records.map (·.public_key) = db1.keys ∧
      (w1Msg.node_records.map (·.public_key)).Nodup) :=
  ⟨by decide, by decide, rfl, @C6_completeness db1 4 w1Msg (by decide) (by decide) rfl⟩

/-- Claim C7: `produce` fails with the `targetNotFound` error exactly when
the requested key is absent from the mapping; in particular it never
returns a message in that case, and no other condition raises
`targetNotFound`. -/
theorem C7_target_not_found (db : NeighborhoodDatabase) (tk : Nat) :
    produce db tk = .error .targetNotFound ↔ db.node_by_key tk = none := by
  constructor
  · intro h
    unfold produce at h
    split at h
    · rename_i ht
      exact ht
    · rename_i target ht
      split at h
      · rename_i e hi
        injection h with h2
        exact absurd h2 (choose_introductions_error_ne_tnf hi)
      · split at h
        · rename_i e he
          injection h with h2
          rw [allEdges_error he] at h2
          simp at h2
        · simp at h
  · intro h
    unfold produce
    rw [h]

theorem possibleIntroducees_dangling {db : NeighborhoodDatabase}
    {target : NodeRecord} {k : Nat} :
    ∀ {ks : List Nat}, k ∈ ks → k ∉ target.neighbors →
      target.public_key ≠ k → db.node_by_key k = none →
      possibleIntroducees db target ks = .error .danglingNeighborReference
  | [], hm, _, _, _ => by simp at hm
  | k' :: ks, hm, h2, h3, h4 => by
    rw [possibleIntroducees]
    by_cases ha : k' ∈ target.neighbors
    · rw [if_pos ha]
      have hne : k ≠ k' := fun he => h2 (he ▸ ha)
      have hm' : k ∈ ks := (List.mem_cons.mp hm).resolve_left hne
      exact possibleIntroducees_dangling hm' h2 h3 h4
    · rw [if_neg ha]
      by_cases hb : target.public_key = k'
      · rw [if_pos hb]
        have hne : k ≠ k' := fun he => h3 (he ▸ hb)
        have hm' : k ∈ ks := (List.mem_cons.mp hm).resolve_left hne
        exact possibleIntroducees_dangling hm' h2 h3 h4
      · rw [if_neg hb]
        by_cases hc : k = k'
        · rw [← hc, h4]
        · cases hy : db.node_by_key k' with
          | none => rfl
          | some n' =>
            have hm' : k ∈ ks := (List.mem_cons.mp hm).resolve_left hc
            rw [possibleIntroducees_dangling hm' h2 h3 h4]

theorem nodeEdges_dangling {db : NeighborhoodDatabase} {k0 y : Nat} :
    ∀ {ys : List Nat}, y ∈ ys → db.node_by_key y = none →
      nodeEdges db k0 ys = .error .danglingNeighborReference
  | [], hm, _ => by simp at hm
  | y' :: ys, hm, h7 => by
    rw [nodeEdges]
    cases hy : db.node_by_key y' with
    | none => rfl
    | some m =>
      have hne : y ≠ y' := fun he => by rw [he, hy] at h7; exact Option.noConfusion h7
      have hm' : y ∈ ys := (List.mem_cons.mp hm).resolve_left hne
      rw [nodeEdges_dangling hm' h7]

theorem allEdges_dangling {db : NeighborhoodDatabase} {x y : Nat}
    {n : NodeRecord} :
    ∀ {ps : List (Nat × NodeRecord)}, (x, n) ∈ ps → y ∈ n.neighbors →
      db.node_by_key y = none →
      allEdges db ps = .error .danglingNeighborReference
  | [], hm, _, _ => by simp at hm
  | p :: ps, hm, h6, h7 => by
    rw [allEdges]
    rcases List.mem_cons.mp hm with he | hm'
    · have : nodeEdges db p.1 p.2.neighbors = .error .danglingNeighborReference := by
        have hn2 : p.2 = n := congrArg Prod.snd he.symm
        exact nodeEdges_dangling (hn2 ▸ h6) h7
      rw [this]
    · cases hne : nodeEdges db p.1 p.2.neighbors with
      | error e =>
        rw [nodeEdges_error hne]
      | ok es =>
        rw [allEdges_dangling hm' h6 h7]

/-- Claim C8: an unresolvable `known_neighbors` key causes the
`danglingNeighborReference` failure both during candidate resolution in
`choose_introductions` and during edge construction in `produce`, and this
failure is distinguishable from `targetNotFound`. -/
theorem C8_dangling_reference {db : NeighborhoodDatabase}
    {target : NodeRecord} {k x y : Nat} {n : NodeRecord}
    (h1 : k ∈ db.root.neighbors) (h2 : k ∉ target.neighbors)
    (h3 : target.public_key ≠ k) (h4 : db.node_by_key k = none)
    (h5 : (x, n) ∈ db.nodes) (h6 : y ∈ n.neighbors)
    (h7 : db.node_by_key y = none) :
    possibleIntroducees db target db.root.neighbors =
      .error .danglingNeighborReference ∧
    allEdges db db.nodes = .error .danglingNeighborReference ∧
    ProduceError.danglingNeighborReference ≠ ProduceError.targetNotFound :=
  ⟨possibleIntroducees_dangling h1 h2 h3 h4,
   allEdges_dangling h5 h6 h7, by simp⟩

/-- Witness for C8 at the fixture `dangDb`: the root's neighbor key 5 has
no record. -/
theorem C8_dangling_reference_witness :
    (5 ∈ dangDb.root.neighbors ∧ 5 ∉ dangTarget.neighbors ∧
      dangTarget.public_key ≠ 5 ∧ dangDb.node_by_key 5 = none ∧
      (0, dangRoot) ∈ dangDb.nodes ∧ 5 ∈ dangRoot.neighbors ∧
      dangDb.node_by_key 5 = none) ∧
    (possibleIntroducees dangDb dangTarget dangDb.root.neighbors =
        .error .danglingNeighborReference ∧
      allEdges dangDb dangDb.nodes = .error .danglingNeighborReference ∧
      ProduceError.danglingNeighborReference ≠ ProduceError.targetNotFound) :=
  ⟨⟨by decide, by decide, by decide, rfl, by decide, by decide, rfl⟩,
   @C8_dangling_reference dangDb dangTarget 5 0 5 dangRoot
     (by decide) (by decide) (by decide) rfl (by decide) (by decide) rfl⟩

/-- Claim C9: `produce` is a pure function of the graph snapshot and the
target key; two invocations on the same inputs return structurally
identical messages — the same entries (hence the same reveal/mask decision
per key) and the same edge set, both positionally and as key pairs. -/
theorem C9_determinism {db : NeighborhoodDatabase} {tk : Nat}
    {msg1 msg2 : Gossip}
    (h1 : produce db tk = .ok msg1) (h2 : produce db tk = .ok msg2) :
    msg1.node_records = msg2.node_records ∧
    msg1.neighbor_pairs = msg2.neighbor_pairs ∧
    msg1.edgeKeyList = msg2.edgeKeyList := by
  have h3 := h1.symm.trans h2
  injection h3 with h4
  subst h4
  exact ⟨rfl, rfl, rfl⟩

/-- Witness for C9 at the fixture `dbm` with target 4. -/
theorem C9_determinism_witness :
    produce dbm 4 = .ok wMsg ∧ produce dbm 4 = .ok wMsg ∧
    (wMsg.node_records = wMsg.node_records ∧
      wMsg.neighbor_pairs = wMsg.neighbor_pairs ∧
      wMsg.edgeKeyList = wMsg.edgeKeyList) :=
  ⟨rfl, rfl, @C9_determinism dbm 4 wMsg wMsg rfl rfl⟩

/-- Claim C3: `choose_introductions` returns a non-empty list only if the
target is not a bootstrap node, the root lists the target as a direct
neighbor, and the target's standard-neighbor count is strictly below
`MINIMUM_NEIGHBORS` (3); whenever any of the three preconditions fails the
returned list is empty. -/
theorem C3_introduction_preconditions {db : NeighborhoodDatabase}
    {target : NodeRecord} {l : List Nat} {c : Nat}
    (hc : targetStandardNeighbors db target.neighbors = .ok c)
    (h : choose_introductions db target = .ok l) :
    (l ≠ [] → target.is_bootstrap_node = false ∧
      target.public_key ∈ db.root.neighbors ∧ c < MINIMUM_NEIGHBORS) ∧
    ((target.is_bootstrap_node = true ∨
      target.public_key ∉ db.root.neighbors ∨ MINIMUM_NEIGHBORS ≤ c) →
      l = []) := by
  obtain ⟨c2, hc2, hcase⟩ := choose_introductions_ok_inv h
  rw [hc] at hc2
  injection hc2 with hc3
  subst hc3
  rcases hcase with ⟨hcond, _, _, _⟩ | ⟨hncond, hl⟩
  · refine ⟨fun _ => hcond, fun hviol => ?_⟩
    obtain ⟨hb, hr, hlt⟩ := hcond
    rcases hviol with hv | hv | hv
    · rw [hb] at hv; exact absurd hv Bool.false_ne_true
    · exact absurd hr hv
    · omega
  · exact ⟨fun hne => absurd hl hne, fun _ => hl⟩

/-- Witness for C3 at the fixture `dbm` with the target record `m4` (count
2, all preconditions hold, one introduction made). -/
theorem C3_introduction_preconditions_witness :
    targetStandardNeighbors dbm m4.neighbors = .ok 2 ∧
    choose_introductions dbm m4 = .ok [3] ∧
    (([3] ≠ ([] : List Nat) → m4.is_bootstrap_node = false ∧
        m4.public_key ∈ dbm.root.neighbors ∧ 2 < MINIMUM_NEIGHBORS) ∧
      ((m4.is_bootstrap_node = true ∨
        m4.public_key ∉ dbm.root.neighbors ∨ MINIMUM_NEIGHBORS ≤ 2) →
        [3] = ([] : List Nat))) :=
  ⟨rfl, rfl, @C3_introduction_preconditions dbm m4 [3] 2 rfl rfl⟩

/-- Claim C5 concerns gossip_producer.rs line 69: the comment there says an
unknown neighbor "should" be assumed non-bootstrap, but the code executes
`unimplemented!()`, which panics. On `bugDb` — where the target's neighbor
key 2 has no record — the count, `choose_introductions` and `produce` all
fail instead of counting the neighbor as a standard peer. -/
theorem C5_unknown_neighbor_panics :
    targetStandardNeighbors bugDb bugTarget.neighbors =
      .error .unimplementedPanic ∧
    choose_introductions bugDb bugTarget = .error .unimplementedPanic ∧
    produce bugDb 1 = .error .unimplementedPanic :=
  ⟨rfl, rfl, rfl⟩

/-- Claim C4: when the three introduction preconditions hold, the chosen
introducees are drawn from the candidate set (root neighbors that are not
target neighbors, not the target, and not bootstrap nodes), their number is
`min (3 - count) |candidates|`, they are listed in ascending order of known
neighbor-count, every chosen key has a count no larger than any unchosen
candidate's, and ties are broken deterministically by the candidate
enumeration order (the relative order of equal-count candidates is
preserved). -/
theorem C4_introduction_selection {db : NeighborhoodDatabase}
    {target : NodeRecord} {l : List Nat} {c : Nat}
    {cands : List (Nat × NodeRecord)}
    (hrn : db.root.neighbors.Nodup)
    (hc : targetStandardNeighbors db target.neighbors = .ok c)
    (hcond : target.is_bootstrap_node = false ∧
      target.public_key ∈ db.root.neighbors ∧ c < MINIMUM_NEIGHBORS)
    (hcands : possibleIntroducees db target db.root.neighbors = .ok cands)
    (h : choose_introductions db target = .ok l) :
    (∀ k ∈ l, k ∈ db.root.neighbors ∧ k ∉ target.neighbors ∧
      target.public_key ≠ k ∧
      ∃ n, db.node_by_key k = some n ∧ n.is_bootstrap_node = false) ∧
    l.length = min (MINIMUM_NEIGHBORS - c) cands.length ∧
    List.Pairwise (fun a b => neighborCountOf db a ≤ neighborCountOf db b) l ∧
    (∀ k ∈ l, ∀ p ∈ cands, p.1 ∉ l →
      neighborCountOf db k ≤ neighborCountOf db p.1) ∧
    (∀ a b : Nat, List.Sublist [a, b] (cands.map (·.1)) →
      neighborCountOf db a = neighborCountOf db b → b ∈ l →
      List.Sublist [a, b] l) := by
  obtain ⟨c2, hc2, hcase⟩ := choose_introductions_ok_inv h
  rw [hc] at hc2
  injection hc2 with hceq
  subst hceq
  rcases hcase with ⟨_, cands2, hcands2, hl⟩ | ⟨hncond, _⟩
  swap
  · exact absurd hcond hncond
  rw [hcands] at hcands2
  injection hcands2 with hcandeq
  subst hcandeq
  subst hl
  have hperm : List.Perm (cands.insertionSort introduceeLE) cands :=
    List.perm_insertionSort introduceeLE cands
  have hsorted : List.Pairwise introduceeLE (cands.insertionSort introduceeLE) :=
    List.sorted_insertionSort introduceeLE cands
  have hcount : ∀ p ∈ cands, neighborCountOf db p.1 = p.2.neighbors.length := by
    intro p hp
    have hchar := (possibleIntroducees_ok_mem hcands
      (k := p.1) (n := p.2)).mp hp
    unfold neighborCountOf
    rw [hchar.2.2.2.1]
    rfl
  have hmemc : ∀ p ∈ (cands.insertionSort introduceeLE).take
      (MINIMUM_NEIGHBORS - c), p ∈ cands := by
    intro p hp
    exact hperm.mem_iff.mp (List.mem_of_mem_take hp)
  refine ⟨?_, ?_, ?_, ?_, ?_⟩
  · intro k hk
    obtain ⟨p, hpmem, hpk⟩ := List.mem_map.mp hk
    have hchar := (possibleIntroducees_ok_mem hcands
      (k := p.1) (n := p.2)).mp (hmemc p hpmem)
    rw [← hpk]
    exact ⟨hchar.1, hchar.2.1, hchar.2.2.1, p.2, hchar.2.2.2⟩
  · rw [List.length_map, List.length_take, List.length_insertionSort]
  · have h3 : List.Pairwise introduceeLE
        ((cands.insertionSort introduceeLE).take (MINIMUM_NEIGHBORS - c)) :=
      List.Pairwise.sublist (List.take_sublist _ _) hsorted
    rw [List.pairwise_map]
    refine h3.imp_of_mem ?_
    intro p q hp hq hr
    rw [hcount p (hmemc p hp), hcount q (hmemc q hq)]
    exact hr
  · intro k hk p hp hpnot
    obtain ⟨q, hqmem, hqk⟩ := List.mem_map.mp hk
    have hpsorted : p ∈ cands.insertionSort introduceeLE := hperm.mem_iff.mpr hp
    have hpdrop : p ∈ (cands.insertionSort introduceeLE).drop
        (MINIMUM_NEIGHBORS - c) := by
      have := (List.take_append_drop (MINIMUM_NEIGHBORS - c)
        (cands.insertionSort introduceeLE)) ▸ hpsorted
      rcases List.mem_append.mp this with htake | hdrop
      · exact absurd (List.mem_map_of_mem (fun x => x.1) htake) hpnot
      · exact hdrop
    have hPW : List.Pairwise introduceeLE
        ((cands.insertionSort introduceeLE).take (MINIMUM_NEIGHBORS - c) ++
         (cands.insertionSort introduceeLE).drop (MINIMUM_NEIGHBORS - c)) := by
      rw [List.take_append_drop]
      exact hsorted
    have hle := (List.pairwise_append.mp hPW).2.2 q hqmem p hpdrop
    rw [← hqk, hcount q (hmemc q hqmem),
      hcount p hp]
    exact hle
  · intro a b hab hcnt hbl
    obtain ⟨l', hl'sub, hl'eq⟩ := List.sublist_map_iff.mp hab
    match l', hl'eq, hl'sub with
    | [pa, pb], hl'eq, hl'sub =>
      simp only [List.map_cons, List.map_nil, List.cons.injEq, and_true] at hl'eq
      obtain ⟨ha, hb⟩ := hl'eq
      have hpamem : pa ∈ cands := hl'sub.subset (by simp)
      have hpbmem : pb ∈ cands := hl'sub.subset (by simp)
      have hle : introduceeLE pa pb := by
        unfold introduceeLE
        rw [← hcount pa hpamem, ← hcount pb hpbmem, ← ha, ← hb]
        exact Nat.le_of_eq hcnt
      have hpair : List.Sublist [pa, pb] (cands.insertionSort introduceeLE) :=
        List.pair_sublist_insertionSort hle hl'sub
      have hnodupc : (cands.map (·.1)).Nodup :=
        (possibleIntroducees_keys_sublist hcands).nodup hrn
      have hnodups : ((cands.insertionSort introduceeLE).map (·.1)).Nodup :=
        (hperm.map (·.1)).nodup_iff.mpr hnodupc
      have hnodupsp : (cands.insertionSort introduceeLE).Nodup :=
        List.Nodup.of_map _ hnodups
      obtain ⟨qb, hqbmem, hqbk⟩ := List.mem_map.mp hbl
      have hqbsorted : qb ∈ cands.insertionSort introduceeLE :=
        List.mem_of_mem_take hqbmem
      have hpbsorted : pb ∈ cands.insertionSort introduceeLE :=
        hpair.subset (by simp)
      have hqbpb : qb = pb :=
        List.inj_on_of_nodup_map hnodups hqbsorted hpbsorted (hqbk.trans hb)
      have hpbtake : pb ∈ (cands.insertionSort introduceeLE).take
          (MINIMUM_NEIGHBORS - c) := hqbpb ▸ hqbmem
      have hpair2 : List.Sublist [pa, pb]
          ((cands.insertionSort introduceeLE).take (MINIMUM_NEIGHBORS - c) ++
           (cands.insertionSort introduceeLE).drop (MINIMUM_NEIGHBORS - c)) := by
        rw [List.take_append_drop]
        exact hpair
      have hdisj : List.Disjoint
          ((cands.insertionSort introduceeLE).take (MINIMUM_NEIGHBORS - c))
          ((cands.insertionSort introduceeLE).drop (MINIMUM_NEIGHBORS - c)) := by
        refine List.disjoint_of_nodup_append ?_
        rw [List.take_append_drop]
        exact hnodupsp
      obtain ⟨r1, r2, heq, hs1, hs2⟩ := List.sublist_append_iff.mp hpair2
      match r1, heq, hs1 with
      | [], heq, hs1 =>
        exfalso
        have heq2 : [pa, pb] = r2 := heq
        rw [← heq2] at hs2
        exact hdisj hpbtake (hs2.subset (by simp))
      | [x], heq, hs1 =>
        exfalso
        injection heq with hx heq0
        have heq2 : [pb] = r2 := heq0
        rw [← heq2] at hs2
        exact hdisj hpbtake (hs2.subset (by simp))
      | x :: y :: r1', heq, hs1 =>
        injection heq with hx heq2
        injection heq2 with hy heq3
        have hnil := List.append_eq_nil.mp heq3.symm
        subst hx
        subst hy
        rw [hnil.1] at hs1
        have hmapped := hs1.map (fun x => x.1)
        simpa only [List.map_cons, List.map_nil, ← ha, ← hb] using hmapped

/-- Witness for C4 at the fixture `dbm` with the target record `m4`: count
2, candidates keys 2 and 3, and the single chosen introducee is 3 (the
candidate with fewer known neighbors). -/
theorem C4_introduction_selection_witness :
    dbm.root.neighbors.Nodup ∧
    targetStandardNeighbors dbm m4.neighbors = .ok 2 ∧
    (m4.is_bootstrap_node = false ∧ m4.public_key ∈ dbm.root.neighbors ∧
      2 < MINIMUM_NEIGHBORS) ∧
    possibleIntroducees dbm m4 dbm.root.neighbors = .ok [(2, m2), (3, m3)] ∧
    choose_introductions dbm m4 = .ok [3] ∧
    ((∀ k ∈ ([3] : List Nat), k ∈ dbm.root.neighbors ∧ k ∉ m4.neighbors ∧
        m4.public_key ≠ k ∧
        ∃ n, dbm.node_by_key k = some n ∧ n.is_bootstrap_node = false) ∧
      ([3] : List Nat).length =
        min (MINIMUM_NEIGHBORS - 2) [(2, m2), (3, m3)].length ∧
      List.Pairwise
        (fun a b => neighborCountOf dbm a ≤ neighborCountOf dbm b) [3] ∧
      (∀ k ∈ ([3] : List Nat), ∀ p ∈ [(2, m2), (3, m3)],
        p.1 ∉ ([3] : List Nat) →
        neighborCountOf dbm k ≤ neighborCountOf dbm p.1) ∧
      (∀ a b : Nat, List.Sublist [a, b] ([(2, m2), (3, m3)].map (·.1)) →
        neighborCountOf dbm a = neighborCountOf dbm b →
        b ∈ ([3] : List Nat) → List.Sublist [a, b] ([3] : List Nat))) :=
  ⟨by decide, rfl, by decide, rfl, rfl,
   @C4_introduction_selection dbm m4 [3] 2 [(2, m2), (3, m3)]
     (by decide) rfl (by decide) rfl rfl⟩

theorem choose_introductions_mem {db : NeighborhoodDatabase}
    {target : NodeRecord} {intros : List Nat} {k : Nat}
    (hi : choose_introductions db target = .ok intros) (hk : k ∈ intros) :
    ∃ n, k ∈ db.root.neighbors ∧ k ∉ target.neighbors ∧
      target.public_key ≠ k ∧ db.node_by_key k = some n ∧
      n.is_bootstrap_node = false := by
  obtain ⟨c, hc, hcase⟩ := choose_introductions_ok_inv hi
  rcases hcase with ⟨hcond, cands, hcands, hl⟩ | ⟨_, hl⟩
  · subst hl
    obtain ⟨p, hpmem, hpk⟩ := List.mem_map.mp hk
    have hp2 : p ∈ cands.insertionSort introduceeLE :=
      List.mem_of_mem_take hpmem
    have hp3 : p ∈ cands := (List.mem_insertionSort introduceeLE).mp hp2
    have hchar := (possibleIntroducees_ok_mem hcands
      (k := p.1) (n := p.2)).mp hp3
    rw [← hpk]
    exact ⟨p.2, hchar.1, hchar.2.1, hchar.2.2.1, hchar.2.2.2⟩
  · subst hl
    simp at hk

/-- Claim C10: whenever `produce` succeeds, every introducee chosen by
`choose_introductions` is reachable inside the message: its entry is
present with its address revealed (equal to the stored address), and the
message discloses the root → introducee edge, which survives the relay
filter because every introducee is a non-bootstrap member of the root's
neighbor list. -/
theorem C10_introducee_reachable {db : NeighborhoodDatabase} {tk : Nat}
    {msg : Gossip} {target : NodeRecord} {intros : List Nat} {k : Nat}
    (hkeyed : ∀ p ∈ db.nodes, p.2.public_key = p.1)
    (hroot : (db.root.public_key, db.root) ∈ db.nodes)
    (hp : produce db tk = .ok msg)
    (ht : db.node_by_key tk = some target)
    (hi : choose_introductions db target = .ok intros)
    (hk : k ∈ intros) :
    (∃ a ∈ msg.node_records, a.public_key = k ∧
      ∃ n, db.node_by_key k = some n ∧ a.node_addr_opt = n.node_addr_opt) ∧
    (db.root.public_key, k) ∈ msg.edgeKeyList := by
  obtain ⟨target2, intros2, edges, ht2, hi2, he2, hmsg⟩ := produce_ok_inv hp
  rw [ht] at ht2
  injection ht2 with ht3
  subst ht3
  rw [hi] at hi2
  injection hi2 with hi3
  subst hi3
  subst hmsg
  obtain ⟨n, hkrn, hknt, hkne, hlk, hb⟩ := choose_introductions_mem hi hk
  have hknodes : (k, n) ∈ db.nodes := (node_by_key_some hlk).1
  constructor
  · refine ⟨GossipNodeRecord.fromRecord n (revealNodeAddr target intros k n),
      List.mem_map_of_mem _ hknodes, ?_, n, hlk, ?_⟩
    · exact hkeyed _ hknodes
    · show (if revealNodeAddr target intros k n = true
        then n.node_addr_opt else none) = n.node_addr_opt
      rw [if_pos]
      simp [revealNodeAddr, hk]
  · rw [produce_msg_edgeKeyList hkeyed he2]
    refine (allEdges_ok_mem he2 (x := db.root.public_key) (y := k)).mpr ?_
    exact ⟨db.root, hroot, hkrn, n, hlk, hb⟩

/-- Witness for C10 at the fixture `dbm` with target 4 and introducee 3. -/
theorem C10_introducee_reachable_witness :
    (∀ p ∈ dbm.nodes, p.2.public_key = p.1) ∧
    (dbm.root.public_key, dbm.root) ∈ dbm.nodes ∧
    produce dbm 4 = .ok wMsg ∧
    dbm.node_by_key 4 = some m4 ∧
    choose_introductions dbm m4 = .ok [3] ∧
    3 ∈ ([3] : List Nat) ∧
    ((∃ a ∈ wMsg.node_records, a.public_key = 3 ∧
        ∃ n, dbm.node_by_key 3 = some n ∧ a.node_addr_opt = n.node_addr_opt) ∧
      (dbm.root.public_key, 3) ∈ wMsg.edgeKeyList) :=
  ⟨by decide, by decide, rfl, rfl, rfl, by decide,
   @C10_introducee_reachable dbm 4 wMsg m4 [3] 3
     (by decide) (by decide) rfl rfl rfl (by decide)⟩
